import Mathlib

set_option maxHeartbeats 1000000
set_option maxRecDepth 4000

/-!
Verification development for the DNS-Exfiltration repository
(`encoding_utils.py`, `client.py`, `server.py`, `config.py`).

Python `bytes` objects are modelled as `List Nat` (each element `< 256`),
Python `str` as `List Char`, Python `float` as `ℚ`, and Python dictionaries
as insertion-ordered association lists.  Fallible operations return `Option`.
-/

namespace DNSExfil

/-! ## Model definitions (shallow embedding of the Python sources) -/

/-- Python `str` is modelled as a list of characters. -/
abbrev Str := List Char

/-- The RFC 4648 Base32 alphabet used by `base64.b32encode`/`b32decode`
(uppercase `A`–`Z` followed by `2`–`7`). -/
def B32_ALPHABET : Str := "ABCDEFGHIJKLMNOPQRSTUVWXYZ234567".data

/-- Character corresponding to a 5-bit value in the Base32 alphabet. -/
def charOfVal (v : Nat) : Char := B32_ALPHABET.getD v 'A'

/-- 5-bit value of a Base32 alphabet character (used by `base64.b32decode`). -/
def valOfChar (c : Char) : Nat := B32_ALPHABET.findIdx (fun x => x == c)

/-- The 8 bits of a byte, most significant first. -/
def byteBits (b : Nat) : List Bool :=
  [b.testBit 7, b.testBit 6, b.testBit 5, b.testBit 4,
   b.testBit 3, b.testBit 2, b.testBit 1, b.testBit 0]

/-- Big-endian value of a list of bits. -/
def bitsVal (l : List Bool) : Nat :=
  l.foldl (fun a b => 2 * a + (if b then 1 else 0)) 0

/-- The 5 bits of a 5-bit value, most significant first. -/
def valBits5 (v : Nat) : List Bool :=
  [v.testBit 4, v.testBit 3, v.testBit 2, v.testBit 1, v.testBit 0]

/-- Split a bit stream into consecutive 5-bit groups (a trailing group of
fewer than 5 bits is dropped). -/
def bitsToVals5 : List Bool → List Nat
  | b0 :: b1 :: b2 :: b3 :: b4 :: rest => bitsVal [b0, b1, b2, b3, b4] :: bitsToVals5 rest
  | _ => []

/-- Split a bit stream into consecutive bytes (a trailing group of fewer
than 8 bits is dropped, exactly as `base64.b32decode` ignores leftover bits). -/
def bitsToBytes : List Bool → List Nat
  | b0 :: b1 :: b2 :: b3 :: b4 :: b5 :: b6 :: b7 :: rest =>
      bitsVal [b0, b1, b2, b3, b4, b5, b6, b7] :: bitsToBytes rest
  | _ => []

/-- The bit stream of a byte string, most significant bit of each byte first. -/
def bytesBits (data : List Nat) : List Bool := (data.map byteBits).flatten

/-- The data characters of `base64.b32encode data` (everything except the
trailing `'='` padding): the bit stream is zero-padded to a multiple of 5
bits and each 5-bit group is mapped through the Base32 alphabet. -/
def b32encodeChars (data : List Nat) : Str :=
  let bits := bytesBits data
  (bitsToVals5 (bits ++ List.replicate ((5 - bits.length % 5) % 5) false)).map charOfVal

/-- Models CPython's `base64.b32encode` (as an ASCII string): the data
characters followed by `'='` padding up to a multiple of 8 characters. -/
def b32encode (data : List Nat) : Str :=
  let chars := b32encodeChars data
  chars ++ List.replicate ((8 - chars.length % 8) % 8) '='

/-- Python's `str.rstrip("=")`: remove all trailing `'='` characters. -/
def rstripPad (s : Str) : Str := (s.reverse.dropWhile (fun c => c == '=')).reverse

/-- `encode_base32_no_padding` from `encoding_utils.py`: Base32-encode and
strip the trailing padding characters. -/
def encode_base32_no_padding (data : List Nat) : Str := rstripPad (b32encode data)

/-- Models CPython's `base64.b32decode (casefold=True)`.  `none` models a
raised `binascii.Error`.  The input length must be a multiple of 8; the
input is upper-cased, trailing `'='` padding is stripped and must leave a
number of pad characters in `{0, 1, 3, 4, 6}`; the remaining characters must
belong to the Base32 alphabet; their 5-bit groups are concatenated and the
resulting stream is cut to `⌊5k/8⌋` bytes (leftover bits are ignored). -/
def b32decode (s : Str) : Option (List Nat) :=
  if s.length % 8 ≠ 0 then none else
  let su := s.map Char.toUpper
  let stripped := rstripPad su
  let padchars := su.length - stripped.length
  if ¬ (padchars = 0 ∨ padchars = 1 ∨ padchars = 3 ∨ padchars = 4 ∨ padchars = 6) then none
  else if ¬ (stripped.all (fun c => B32_ALPHABET.contains c)) then none
  else some ((bitsToBytes ((stripped.map (fun c => valBits5 (valOfChar c))).flatten)).take
      (5 * stripped.length / 8))

/-- `decode_base32_no_padding` from `encoding_utils.py`: re-derive the needed
pad length `(8 - len % 8) % 8`, append that many `'='` and delegate to the
standard Base32 decode (case-insensitively). -/
def decode_base32_no_padding (encoded : Str) : Option (List Nat) :=
  b32decode (encoded ++ List.replicate ((8 - encoded.length % 8) % 8) '=')

/-- One bit step of the reflected CRC-32 update (polynomial `0xEDB88320`). -/
def crc32Bit (c : Nat) : Nat :=
  if c % 2 = 1 then (c / 2) ^^^ 0xEDB88320 else c / 2

/-- One byte step of zlib's CRC-32: fold in the byte, then eight bit steps. -/
def crc32Byte (c b : Nat) : Nat :=
  crc32Bit (crc32Bit (crc32Bit (crc32Bit (crc32Bit (crc32Bit (crc32Bit (crc32Bit (c ^^^ b))))))))

/-- Models `zlib.crc32` on a byte string: the standard reflected CRC-32 with
initial value and final xor `0xFFFFFFFF`. -/
def crc32 (data : List Nat) : Nat :=
  (data.foldl crc32Byte 0xFFFFFFFF) ^^^ 0xFFFFFFFF

/-- `is_valid_base32` from `encoding_utils.py`: every character upper-cases
into the Base32 alphabet. -/
def is_valid_base32 (data : Str) : Bool :=
  data.all (fun c => B32_ALPHABET.contains c.toUpper)

/-- The two big-endian bytes of the 16-bit-masked CRC of `data`
(`zlib.crc32(data.encode("ascii")) & 0xFFFF`, then `crc.to_bytes(2, "big")`);
Python's `str.encode("ascii")` is modelled as `Char.toNat` (the call sites
use ASCII strings). -/
def crcBytes (data : Str) : List Nat :=
  let crc := crc32 (data.map Char.toNat) &&& 0xFFFF
  [crc / 256, crc % 256]

/-- `calculate_checksum` from `encoding_utils.py`: Base32-encode the 2-byte
CRC without padding, pad with `'A'` on the right only if the encoding is
shorter than the requested length, then truncate and upper-case. -/
def calculate_checksum (data : Str) (length : Nat) : Str :=
  let checksum := encode_base32_no_padding (crcBytes data)
  let padded := if checksum.length < length
    then checksum ++ List.replicate (length - checksum.length) 'A' else checksum
  (padded.take length).map Char.toUpper

/-- `validate_checksum` from `encoding_utils.py`: recompute at the given
checksum's length and compare upper-cased. -/
def validate_checksum (data : Str) (checksum : Str) : Bool :=
  (calculate_checksum data checksum.length).map Char.toUpper == checksum.map Char.toUpper

/-- `generate_session_id` from `encoding_utils.py` with the output of
`secrets.token_bytes` passed explicitly: the caller draws
`(length * 5 + 7) / 8` random bytes, Base32-encodes them without padding,
truncates to `length` characters and upper-cases. -/
def generate_session_id (length : Nat) (random_bytes : List Nat) : Str :=
  ((encode_base32_no_padding random_bytes).take length).map Char.toUpper

/-- The ASCII character of a decimal digit. -/
def digitChar (d : Nat) : Char := Char.ofNat (48 + d)

/-- Decimal digits, least significant first, computed with structural fuel
(any `fuel ≥ n` gives the digits of `n`). -/
def natCharsRevF : Nat → Nat → List Char
  | _, 0 => []
  | 0, _ + 1 => []
  | fuel + 1, n + 1 => digitChar ((n + 1) % 10) :: natCharsRevF fuel ((n + 1) / 10)

/-- Decimal digits of `n`, least significant first. -/
def natCharsRev (n : Nat) : List Char := natCharsRevF n n

/-- Python `str(n)` for a natural number. -/
def natStr (n : Nat) : Str := if n = 0 then ['0'] else (natCharsRev n).reverse

/-- Python `str(n).zfill(4)`: left-pad the decimal representation with
`'0'` to at least 4 characters. -/
def zfill4 (n : Nat) : Str := List.replicate (4 - (natStr n).length) '0' ++ natStr n

/-- Numeric value of a decimal digit string (models Python `int(s)` on
digit strings). -/
def natOfDigits (l : Str) : Nat := l.foldl (fun a c => 10 * a + (c.toNat - 48)) 0

/-- The slicing used by `chunk_data`: consecutive segments of `size`
characters, the last possibly shorter; models
`[s[i : i + size] for i in range(0, len(s), size)]` (callers guarantee
`size ≥ 40`; for `size = 0` Python's `range` would raise). -/
def chunkEvery (size : Nat) (l : Str) : List Str :=
  if hns : l = [] ∨ size = 0 then []
  else l.take size :: chunkEvery size (l.drop size)
termination_by l.length
decreasing_by
  push_neg at hns
  have : 0 < l.length := List.length_pos.mpr hns.1
  simp only [List.length_drop]
  omega

/-- `chunk_data` from `client.py`: Base32-encode the raw bytes and split
into fixed-size chunks. -/
def chunk_data (chunk_size : Nat) (raw_bytes : List Nat) : List Str :=
  chunkEvery chunk_size (encode_base32_no_padding raw_bytes)

/-- Outcome of the local checks performed by `send_chunk`/`send_done`
before any transport call: either the record is rejected locally, or a DNS
query whose left-most label is `label` is transmitted. -/
inductive SendDecision where
  | rejected
  | transmit (label : Str)
deriving DecidableEq

/-- The label `<session>-<seq:4 digits>-<chunk>-<checksum>` assembled by
`send_chunk`. -/
def send_chunk_label (session_id : Str) (checksum_length : Nat) (chunk_id : Nat)
    (chunk : Str) : Str :=
  session_id ++ '-' :: zfill4 chunk_id ++ '-' :: chunk
    ++ '-' :: calculate_checksum chunk checksum_length

/-- The pre-transport checks of `send_chunk` from `client.py`: reject when
the assembled label exceeds 63 characters, then when the chunk text fails
Base32 alphabet validation; only otherwise is the query transmitted. -/
def send_chunk_decision (session_id : Str) (checksum_length : Nat) (chunk_id : Nat)
    (chunk : Str) : SendDecision :=
  let label := send_chunk_label session_id checksum_length chunk_id chunk
  if 63 < label.length then .rejected
  else if ¬ is_valid_base32 chunk then .rejected
  else .transmit label

/-- The pre-transport check of `send_done` from `client.py`
(label `<session>-DONE-<total:4 digits>`). -/
def send_done_decision (session_id : Str) (total_chunks : Nat) : SendDecision :=
  let label := session_id ++ '-' :: ("DONE").data ++ '-' :: zfill4 total_chunks
  if 63 < label.length then .rejected else .transmit label

/-- One observable transmission of `exfiltrate_file`. -/
inductive SendEvent where
  | chunkSent (seq : Nat) (chunk : Str)
  | chunkFailed (seq : Nat)
  | doneSent (total : Nat)
deriving DecidableEq

/-- `exfiltrate_file` from `client.py` with per-chunk transport success
abstracted by the oracle `delivered` (a chunk counts as delivered on a
normal answer, NXDOMAIN or NoAnswer).  Returns the boolean result together
with the transmission events.  The `chunks.length = 0` branch models the
`ZeroDivisionError` raised by the success-rate computation
`success_count / len(chunks) * 100`, caught by the surrounding handler,
which returns `False` before the DONE record is ever considered. -/
def exfiltrate_file (chunk_size : Nat) (delivered : Nat → Bool) (file_bytes : List Nat) :
    Bool × List SendEvent :=
  let chunks := chunk_data chunk_size file_bytes
  let events := chunks.enum.map (fun p =>
    if delivered p.1 then SendEvent.chunkSent p.1 p.2 else SendEvent.chunkFailed p.1)
  let success_count := (chunks.enum.filter (fun p => delivered p.1)).length
  if chunks.length = 0 then (false, events)
  else if success_count = chunks.length then
    (true, events ++ [SendEvent.doneSent chunks.length])
  else (false, events)

/-- The rate-control fields of `DNSExfiltrationClient` read and written by
`_update_rate`; Python floats are modelled as rationals. -/
structure RateState where
  current_rate : ℚ
  response_times : List ℚ
deriving DecidableEq

/-- The configuration fields consulted by `_update_rate`. -/
structure RateConfig where
  base_rate_limit : ℚ
  max_rate_limit : ℚ
  enable_adaptive_rate : Bool
deriving DecidableEq

/-- Client initialisation: `current_rate = config.base_rate_limit` and an
empty response-time history. -/
def initRateState (cfg : RateConfig) : RateState :=
  { current_rate := cfg.base_rate_limit, response_times := [] }

/-- `_update_rate` from `client.py`: append the observed response time,
keep only the last 10 samples, and adjust by the moving average: above
1.0 s reduce the rate to `max(base_rate_limit * 0.5, rate * 0.9)`; below
0.1 s increase it to `min(max_rate_limit, rate * 1.1)`. -/
def update_rate (cfg : RateConfig) (st : RateState) (response_time : ℚ) : RateState :=
  if ¬ cfg.enable_adaptive_rate then st
  else
    let rts0 := st.response_times ++ [response_time]
    let rts := if 10 < rts0.length then rts0.tail else rts0
    let avg := rts.sum / (rts.length : ℚ)
    if 1 < avg then
      { current_rate := max (cfg.base_rate_limit * (1 / 2)) (st.current_rate * (9 / 10)),
        response_times := rts }
    else if avg < 1 / 10 then
      { current_rate := min cfg.max_rate_limit (st.current_rate * (11 / 10)),
        response_times := rts }
    else { st with response_times := rts }

/-- The default rate configuration of `config.py`
(`base_rate_limit = 75`, `max_rate_limit = 150`, adaptive enabled). -/
def rateCfg75 : RateConfig :=
  { base_rate_limit := 75, max_rate_limit := 150, enable_adaptive_rate := true }

/-- Insertion-ordered association-list lookup (first matching key): the
model of Python `dict` read access. -/
def lookupA {α : Type} : List (Str × α) → Str → Option α
  | [], _ => none
  | (k', v) :: t, k => if k' = k then some v else lookupA t k

/-- Lookup with default: Python's `dict.get(k, d)`. -/
def lookupD {α : Type} (l : List (Str × α)) (k : Str) (d : α) : α :=
  (lookupA l k).getD d

/-- `d[k] = v` on an insertion-ordered association list: update in place
when the key is present, otherwise append (Python dicts preserve insertion
order). -/
def insertA {α : Type} : List (Str × α) → Str → α → List (Str × α)
  | [], k, v => [(k, v)]
  | (k', v') :: t, k, v => if k' = k then (k', v) :: t else (k', v') :: insertA t k v

/-- `d.pop(k, None)`: remove the key. -/
def eraseA {α : Type} : List (Str × α) → Str → List (Str × α)
  | [], _ => []
  | (k', v) :: t, k => if k' = k then eraseA t k else (k', v) :: eraseA t k

/-- The `ServerConfig` fields consulted by `ExfiltrationResolver`
(`config.py`); timeouts and timestamps are rationals (Python floats). -/
structure Config where
  chunk_timeout : ℚ
  max_sessions : Nat
  max_total_chunks : Nat
  server_rate_limit : Option Nat
deriving DecidableEq

/-- The default server limits from `config.py`: `chunk_timeout = 300`,
`max_sessions = 100`, `max_total_chunks = 50000`, global rate limit
disabled. -/
def defaultConfig : Config :=
  { chunk_timeout := 300, max_sessions := 100, max_total_chunks := 50000,
    server_rate_limit := none }

/-- The mutable state of `ExfiltrationResolver`: per-session chunk maps
(keyed by the 4-digit sequence string), expected totals, first-seen and
last-activity timestamps, and the global rate-limit window. -/
structure ResolverState where
  data_chunks : List (Str × List (Str × Str))
  expected_total_chunks : List (Str × Nat)
  session_first_seen : List (Str × ℚ)
  session_last_activity : List (Str × ℚ)
  rate_limit_timestamps : List ℚ
deriving DecidableEq

/-- The freshly initialised resolver state. -/
def initResolverState : ResolverState :=
  { data_chunks := [], expected_total_chunks := [], session_first_seen := [],
    session_last_activity := [], rate_limit_timestamps := [] }

/-- The `while str(i).zfill(4) in session_chunks` collection loop of
`try_write_to_file`, written with structural fuel.  Fuel
`chunks.length + 1` is never exhausted — the collected keys are pairwise
distinct (`zfill4` is injective), so at most `chunks.length` iterations can
find a key and the loop always stops at the first missing sequence number,
exactly as the unbounded source loop. -/
def collectAvail (chunks : List (Str × Str)) : Nat → Nat → List Str
  | 0, _ => []
  | fuel + 1, i =>
    match lookupA chunks (zfill4 i) with
    | some v => v :: collectAvail chunks fuel (i + 1)
    | none => []

/-- `try_write_to_file` from `server.py` as a state observer: returns the
bytes written to the session's output file, `none` when no file is written
(missing session, empty chunk map, empty contiguous prefix, non-Base32
combined text — a `ValueError` caught by the outer handler —, an invalid
unpadded-length residue, an expected-count mismatch after DONE, or a Base32
decode failure caught as `binascii.Error`). -/
def try_write_to_file (st : ResolverState) (session_id : Str) : Option (List Nat) :=
  match lookupA st.data_chunks session_id with
  | none => none
  | some session_chunks =>
    if session_chunks = [] then none
    else
      let available_chunks := collectAvail session_chunks (session_chunks.length + 1) 0
      if available_chunks = [] then none
      else
        let combined_data := available_chunks.flatten
        if ¬ is_valid_base32 combined_data then none
        else if ¬ (combined_data.length % 8 = 0 ∨ combined_data.length % 8 = 2
            ∨ combined_data.length % 8 = 4 ∨ combined_data.length % 8 = 5
            ∨ combined_data.length % 8 = 7) then none
        else
          match lookupA st.expected_total_chunks session_id with
          | some expected =>
              if available_chunks.length ≠ expected then none
              else decode_base32_no_padding combined_data
          | none => decode_base32_no_padding combined_data

/-- Number of distinct stored sequence keys in a session's chunk map. -/
def distinctKeyCount (chunks : List (Str × Str)) : Nat :=
  (chunks.map Prod.fst).dedup.length

/-- Sum of stored chunk counts across all sessions
(`sum(len(c) for c in self.data_chunks.values())`). -/
def totalChunks (dc : List (Str × List (Str × Str))) : Nat :=
  (dc.map (fun p => p.2.length)).sum

/-- Python's `min(candidates, key=key)`: the first element attaining the
minimal key value. -/
def minByKey (key : Str → ℚ) : Str → List Str → Str
  | best, [] => best
  | best, x :: xs => if key x < key best then minByKey key x xs else minByKey key best xs

/-- Remove every trace of a session (`pop` from all four dictionaries; the
preceding best-effort `try_write_to_file` flush does not change resolver
state). -/
def removeSession (st : ResolverState) (sid : Str) : ResolverState :=
  { data_chunks := eraseA st.data_chunks sid,
    expected_total_chunks := eraseA st.expected_total_chunks sid,
    session_first_seen := eraseA st.session_first_seen sid,
    session_last_activity := eraseA st.session_last_activity sid,
    rate_limit_timestamps := st.rate_limit_timestamps }

/-- The `while` loop of `_evict_oldest_sessions`, with structural fuel
(each iteration removes one candidate, so fuel = number of candidates is
exact): while the session count is at or above `max_sessions` or the total
stored chunks exceed `max_total_chunks`, and candidates remain, the
candidate with the least `first_seen` (default `0.0`) is flushed and
removed. -/
def evictLoop (cfg : Config) : Nat → ResolverState → List Str → ResolverState
  | 0, st, _ => st
  | fuel + 1, st, candidates =>
    match candidates with
    | [] => st
    | c :: cs =>
      if cfg.max_sessions ≤ st.data_chunks.length
          ∨ cfg.max_total_chunks < totalChunks st.data_chunks then
        let oldest := minByKey (fun sid => lookupD st.session_first_seen sid 0) c cs
        evictLoop cfg fuel (removeSession st oldest) ((c :: cs).erase oldest)
      else st

/-- `_evict_oldest_sessions` from `server.py`: candidates are the tracked
sessions other than the one currently being serviced, in insertion order. -/
def evict_oldest_sessions (cfg : Config) (st : ResolverState)
    (current_session_id : Option Str) : ResolverState :=
  let candidates := (st.data_chunks.map Prod.fst).filter
    (fun s => decide (some s ≠ current_session_id))
  evictLoop cfg candidates.length st candidates

/-- `_expire_idle_sessions` from `server.py`: every session whose
`last_activity` (default 0) lies more than `chunk_timeout` seconds before
`now` is flushed (state-neutrally) and removed.  The Python loop iterates
over a snapshot of the keys and pops only the session just tested, so the
filter-then-remove formulation is equivalent. -/
def expire_idle_sessions (cfg : Config) (st : ResolverState) (now : ℚ) : ResolverState :=
  let expired := (st.session_last_activity.map Prod.fst).filter
    (fun sid => decide (cfg.chunk_timeout < now - lookupD st.session_last_activity sid 0))
  expired.foldl removeSession st

/-- DNS response disposition of `resolve`: a normal reply carrying the
placeholder A record, or the NXDOMAIN failure reply (`rcode = 3`). -/
inductive Rcode where
  | answered
  | nxdomain
deriving DecidableEq

/-- The left-most DNS label of a query name
(`query_name.split(".", 1)[0]`). -/
def leftLabel (query_name : Str) : Str :=
  query_name.takeWhile (fun c => decide (c ≠ '.'))

/-- Python's `str.split("-")`. -/
def splitDash : Str → List Str
  | [] => [[]]
  | c :: cs =>
    match splitDash cs with
    | [] => [[c]]
    | h :: t => if c = '-' then [] :: h :: t else (c :: h) :: t

/-- `self.session_last_activity[session_id] = time.time()`. -/
def touchActivity (st : ResolverState) (session_id : Str) (now : ℚ) : ResolverState :=
  { st with session_last_activity := insertA st.session_last_activity session_id now }

/-- `if session_id not in self.session_first_seen: ... = time.time()`. -/
def touchFirstSeen (st : ResolverState) (session_id : Str) (now : ℚ) : ResolverState :=
  if (lookupA st.session_first_seen session_id).isSome then st
  else { st with session_first_seen := insertA st.session_first_seen session_id now }

/-- The bookkeeping `resolve` performs on a 4-field data record *before*
validating any field: idle expiry, `last_activity[sid] = now`,
`first_seen.setdefault(sid, now)`, then capacity eviction excluding the
serviced session. -/
def preprocessData (cfg : Config) (st : ResolverState) (now : ℚ) (session_id : Str) :
    ResolverState :=
  evict_oldest_sessions cfg
    (touchFirstSeen (touchActivity (expire_idle_sessions cfg st now) session_id now)
      session_id now)
    (some session_id)

/-- The data-record branch of `resolve`: pre-validation bookkeeping, the
four independent field validations, checksum verification, then storing the
chunk (and a state-neutral flush attempt). -/
def resolveData (cfg : Config) (st : ResolverState) (now : ℚ)
    (session_id seq_str chunk_text checksum : Str) : ResolverState × Rcode :=
  let st4 := preprocessData cfg st now session_id
  if ¬ is_valid_base32 session_id then (st4, Rcode.nxdomain)
  else if ¬ (seq_str.length = 4 ∧ seq_str.all Char.isDigit) then (st4, Rcode.nxdomain)
  else if ¬ is_valid_base32 chunk_text then (st4, Rcode.nxdomain)
  else if ¬ is_valid_base32 checksum then (st4, Rcode.nxdomain)
  else if ¬ validate_checksum chunk_text checksum then (st4, Rcode.nxdomain)
  else
    let session_chunks := lookupD st4.data_chunks session_id []
    ({ st4 with
        data_chunks :=
          insertA st4.data_chunks session_id (insertA session_chunks seq_str chunk_text) },
      Rcode.answered)

/-- `resolve` from `server.py` after the global rate limit: extract the
left-most label (rejecting labels over 63 characters), split on `-`, and
dispatch on the DONE shape (3 fields, literal `DONE`, 4-digit total — which
sets `expected_total` and `last_activity` and attempts a state-neutral
flush) or the 4-field data shape; any other field count is a malformed
record rejected without state change. -/
def resolveAfterRate (cfg : Config) (st : ResolverState) (now : ℚ) (query_name : Str) :
    ResolverState × Rcode :=
  let subdomain := leftLabel query_name
  if 63 < subdomain.length then (st, Rcode.nxdomain)
  else
    match splitDash subdomain with
    | [session_id, done_word, total_str] =>
      if done_word = ("DONE").data ∧ total_str.all Char.isDigit = true
          ∧ total_str.length = 4 then
        if ¬ is_valid_base32 session_id then (st, Rcode.nxdomain)
        else
          ({ st with
              expected_total_chunks := insertA st.expected_total_chunks session_id
                (natOfDigits total_str),
              session_last_activity := insertA st.session_last_activity session_id now },
            Rcode.answered)
      else (st, Rcode.nxdomain)
    | [session_id, seq_str, chunk_text, checksum] =>
        resolveData cfg st now session_id seq_str chunk_text checksum
    | _ => (st, Rcode.nxdomain)

/-- `resolve` from `server.py` as a state transformer.  `now` stands for
the `time.time()` readings during the request (modelled as one instant);
output-file writes are state-neutral observations handled by
`try_write_to_file`; `Rcode.nxdomain` models every `rcode = 3` reply.  The
optional global rate limit prunes the sliding 60-second window first and
rejects without recording the query when the window is full. -/
def resolve (cfg : Config) (st : ResolverState) (now : ℚ) (query_name : Str) :
    ResolverState × Rcode :=
  match cfg.server_rate_limit with
  | some lim =>
    let ts := st.rate_limit_timestamps.dropWhile (fun t => decide (t < now - 60))
    if lim ≤ ts.length then
      ({ st with rate_limit_timestamps := ts }, Rcode.nxdomain)
    else
      resolveAfterRate cfg { st with rate_limit_timestamps := ts ++ [now] } now query_name
  | none => resolveAfterRate cfg st now query_name

/-- A concrete server state for the C2 witness: session `"AAAA"` holds one
stored chunk while `expected_total = 2`. -/
def c2state : ResolverState :=
  { data_chunks := [(("AAAA").data, [(("0000").data, ("MFRG").data)])],
    expected_total_chunks := [(("AAAA").data, 2)],
    session_first_seen := [], session_last_activity := [],
    rate_limit_timestamps := [] }

/-- A configuration with `max_sessions = 1`, permitted by `config.py`'s
validation (which only requires positivity). -/
def evictCfg1 : Config :=
  { chunk_timeout := 300, max_sessions := 1, max_total_chunks := 50000,
    server_rate_limit := none }

/-- A reachable state: session `"AAAA"` is tracked with one stored chunk,
as after one accepted data record. -/
def evictState1 : ResolverState :=
  { data_chunks := [(("AAAA").data, [(("0000").data, ("MFRG").data)])],
    expected_total_chunks := [],
    session_first_seen := [(("AAAA").data, 0)],
    session_last_activity := [(("AAAA").data, 0)],
    rate_limit_timestamps := [] }

/-- Does the query's left-most label parse as a DONE control record for
session `s` carrying total `t`?  Mirrors the guard of the DONE branch of
`resolve`. -/
def isDoneRecordFor (query_name : Str) (s : Str) (t : Nat) : Prop :=
  ¬ 63 < (leftLabel query_name).length
  ∧ ∃ total_str : Str, splitDash (leftLabel query_name) = [s, ("DONE").data, total_str]
      ∧ total_str.all Char.isDigit = true ∧ total_str.length = 4
      ∧ is_valid_base32 s = true ∧ natOfDigits total_str = t

/-! ## Theorems -/

theorem bitsVal_byteBits : ∀ a, a < 256 → bitsVal (byteBits a) = a := by decide

theorem valBits5_bitsVal (a b c d e : Bool) :
    valBits5 (bitsVal [a, b, c, d, e]) = [a, b, c, d, e] := by
  cases a <;> cases b <;> cases c <;> cases d <;> cases e <;> decide

theorem bitsVal_lt_32 (a b c d e : Bool) : bitsVal [a, b, c, d, e] < 32 := by
  cases a <;> cases b <;> cases c <;> cases d <;> cases e <;> decide

theorem charOfVal_mem : ∀ v, v < 32 → charOfVal v ∈ B32_ALPHABET := by decide

theorem valOfChar_charOfVal : ∀ v, v < 32 → valOfChar (charOfVal v) = v := by decide

theorem toUpper_of_mem_alphabet : ∀ c ∈ B32_ALPHABET, c.toUpper = c := by decide

theorem pad_not_mem_alphabet : '=' ∉ B32_ALPHABET := by decide

theorem length_bitsToVals5 : ∀ l : List Bool, (bitsToVals5 l).length = l.length / 5
  | [] => by simp [bitsToVals5]
  | [a] => by simp [bitsToVals5]
  | [a, b] => by simp [bitsToVals5]
  | [a, b, c] => by simp [bitsToVals5]
  | [a, b, c, d] => by simp [bitsToVals5]
  | a :: b :: c :: d :: e :: rest => by
      simp only [bitsToVals5, List.length_cons, length_bitsToVals5 rest]
      omega

theorem mem_bitsToVals5_lt : ∀ l : List Bool, ∀ v ∈ bitsToVals5 l, v < 32
  | [] => by simp [bitsToVals5]
  | [a] => by simp [bitsToVals5]
  | [a, b] => by simp [bitsToVals5]
  | [a, b, c] => by simp [bitsToVals5]
  | [a, b, c, d] => by simp [bitsToVals5]
  | a :: b :: c :: d :: e :: rest => by
      intro v hv
      simp only [bitsToVals5, List.mem_cons] at hv
      rcases hv with h | h
      · subst h; exact bitsVal_lt_32 a b c d e
      · exact mem_bitsToVals5_lt rest v h

theorem join_valBits5_bitsToVals5 :
    ∀ l : List Bool, l.length % 5 = 0 → ((bitsToVals5 l).map valBits5).flatten = l
  | [], _ => by simp [bitsToVals5]
  | [a], h => by simp at h
  | [a, b], h => by simp at h
  | [a, b, c], h => by simp at h
  | [a, b, c, d], h => by simp at h
  | a :: b :: c :: d :: e :: rest, h => by
      have hr : rest.length % 5 = 0 := by
        simp only [List.length_cons] at h; omega
      simp only [bitsToVals5, List.map_cons, List.flatten_cons,
        join_valBits5_bitsToVals5 rest hr, valBits5_bitsVal]
      rfl

theorem length_bytesBits (data : List Nat) : (bytesBits data).length = 8 * data.length := by
  induction data with
  | nil => simp [bytesBits]
  | cons a t ih =>
      simp only [bytesBits, List.map_cons, List.flatten_cons, List.length_append] at *
      simp [byteBits, ih]
      omega

theorem bitsToBytes_bytesBits_append (data : List Nat) (h : ∀ x ∈ data, x < 256)
    (extra : List Bool) :
    bitsToBytes (bytesBits data ++ extra) = data ++ bitsToBytes extra := by
  induction data with
  | nil => simp [bytesBits]
  | cons a t ih =>
      have ha : a < 256 := h a (by simp)
      have ht : ∀ x ∈ t, x < 256 := fun x hx => h x (by simp [hx])
      have : bytesBits (a :: t) = byteBits a ++ bytesBits t := by
        simp [bytesBits]
      rw [this, List.append_assoc]
      simp only [byteBits, List.cons_append, List.nil_append]
      show bitsVal [a.testBit 7, a.testBit 6, a.testBit 5, a.testBit 4,
        a.testBit 3, a.testBit 2, a.testBit 1, a.testBit 0] :: bitsToBytes (bytesBits t ++ extra)
        = a :: (t ++ bitsToBytes extra)
      rw [ih ht]
      have := bitsVal_byteBits a ha
      simp only [byteBits] at this
      rw [this]

theorem dropWhile_replicate_pad (m : Nat) :
    List.dropWhile (fun c => c == '=') (List.replicate m '=') = [] := by
  induction m with
  | zero => rfl
  | succ n ih => simp [List.replicate_succ, List.dropWhile_cons, ih]

theorem dropWhile_pad_eq_self (l : Str) (h : ∀ c ∈ l, c ≠ '=') :
    List.dropWhile (fun c => c == '=') l = l := by
  cases l with
  | nil => rfl
  | cons a t =>
      have ha : (a == '=') = false := beq_eq_false_iff_ne.mpr (h a (by simp))
      simp [List.dropWhile_cons, ha]

theorem rstripPad_append_replicate (s : Str) (m : Nat) (h : ∀ c ∈ s, c ≠ '=') :
    rstripPad (s ++ List.replicate m '=') = s := by
  unfold rstripPad
  rw [List.reverse_append, List.reverse_replicate, List.dropWhile_append,
      dropWhile_replicate_pad]
  simp only [List.isEmpty_nil, if_true]
  rw [dropWhile_pad_eq_self _ (fun c hc => h c (List.mem_reverse.mp hc)), List.reverse_reverse]

theorem b32encodeChars_mem (data : List Nat) : ∀ c ∈ b32encodeChars data, c ∈ B32_ALPHABET := by
  intro c hc
  simp only [b32encodeChars, List.mem_map] at hc
  obtain ⟨v, hv, rfl⟩ := hc
  exact charOfVal_mem v (mem_bitsToVals5_lt _ v hv)

theorem b32encodeChars_ne_pad (data : List Nat) : ∀ c ∈ b32encodeChars data, c ≠ '=' :=
  fun c hc heq => pad_not_mem_alphabet (heq ▸ b32encodeChars_mem data c hc)

theorem encode_eq_chars (data : List Nat) :
    encode_base32_no_padding data = b32encodeChars data := by
  simp only [encode_base32_no_padding, b32encode]
  exact rstripPad_append_replicate _ _ (b32encodeChars_ne_pad data)

theorem length_b32encodeChars (data : List Nat) :
    (b32encodeChars data).length
      = (8 * data.length + (5 - 8 * data.length % 5) % 5) / 5 := by
  simp [b32encodeChars, length_bitsToVals5, length_bytesBits]

theorem bits_of_b32encodeChars (b : List Nat) :
    ((b32encodeChars b).map (fun c => valBits5 (valOfChar c))).flatten
      = bytesBits b ++ List.replicate ((5 - (bytesBits b).length % 5) % 5) false := by
  simp only [b32encodeChars, List.map_map]
  have hmap : ∀ v ∈ bitsToVals5 (bytesBits b ++
        List.replicate ((5 - (bytesBits b).length % 5) % 5) false),
      ((fun c => valBits5 (valOfChar c)) ∘ charOfVal) v = valBits5 v := by
    intro v hv
    have := mem_bitsToVals5_lt _ v hv
    simp [Function.comp, valOfChar_charOfVal v this]
  rw [List.map_congr_left hmap]
  apply join_valBits5_bitsToVals5
  simp [List.length_append, length_bytesBits]
  omega

/-- C1: for every byte string `b`,
`decode_base32_no_padding (encode_base32_no_padding b) = b`: encoding strips
the trailing `'='` padding and decoding re-derives the needed pad length
`(8 - len % 8) % 8` before delegating to a standard Base32 decode, so the
round-trip is the identity on all byte strings, including the empty one. -/
theorem c1_base32_roundtrip (b : List Nat) (hb : ∀ x ∈ b, x < 256) :
    decode_base32_no_padding (encode_base32_no_padding b) = some b := by
  rw [encode_eq_chars]
  have hlen := length_b32encodeChars b
  have hmem := b32encodeChars_mem b
  have hnepad := b32encodeChars_ne_pad b
  have hbitsarr := bits_of_b32encodeChars b
  set chars := b32encodeChars b with hchars
  set n := b.length with hn
  set k := chars.length with hk
  set p : Nat := (5 - 8 * n % 5) % 5 with hp
  have hk5 : 5 * k = 8 * n + p := by omega
  set m : Nat := (8 - k % 8) % 8 with hm
  -- the re-padded decode input
  have hlenapp : (chars ++ List.replicate m '=').length = k + m := by
    simp [List.length_append]
  have hupper : (chars ++ List.replicate m '=').map Char.toUpper
      = chars ++ List.replicate m '=' := by
    have : ∀ c ∈ chars ++ List.replicate m '=', Char.toUpper c = c := by
      intro c hc
      rcases List.mem_append.mp hc with h | h
      · exact toUpper_of_mem_alphabet c (hmem c h)
      · rw [List.eq_of_mem_replicate h]; decide
    calc (chars ++ List.replicate m '=').map Char.toUpper
        = (chars ++ List.replicate m '=').map id := List.map_congr_left this
      _ = _ := List.map_id _
  have hstrip : rstripPad (chars ++ List.replicate m '=') = chars :=
    rstripPad_append_replicate _ _ hnepad
  have hall : chars.all (fun c => B32_ALPHABET.contains c) = true := by
    rw [List.all_eq_true]
    intro c hc
    exact List.elem_eq_true_of_mem (hmem c hc)
  simp only [decode_base32_no_padding, b32decode, ← hk, ← hm, hupper, hstrip, hlenapp]
  rw [if_neg (by omega)]
  rw [if_neg (not_not_intro (by omega))]
  rw [if_neg (not_not_intro hall)]
  have htake : 5 * k / 8 = n := by omega
  rw [hbitsarr, htake]
  have hlb : (bytesBits b).length = 8 * n := length_bytesBits b
  rw [hlb, ← hp, bitsToBytes_bytesBits_append b hb]
  rw [List.take_left' rfl]

/-- Witness for C1: the round trip at the concrete byte strings
`[72, 105]` (ASCII "Hi") and the empty byte string. -/
theorem c1_base32_roundtrip_witness :
    decode_base32_no_padding (encode_base32_no_padding [72, 105]) = some [72, 105]
    ∧ decode_base32_no_padding (encode_base32_no_padding []) = some [] :=
  ⟨c1_base32_roundtrip [72, 105] (by decide), c1_base32_roundtrip [] (by decide)⟩

/-- Sanity check of the CRC-32 model against the standard test vector
`crc32(b"123456789") = 0xCBF43926`. -/
theorem crc32_check_value : crc32 (("123456789").data.map Char.toNat) = 0xCBF43926 := by
  decide

theorem map_toUpper_of_mem_alphabet (l : Str) (h : ∀ c ∈ l, c ∈ B32_ALPHABET) :
    l.map Char.toUpper = l :=
  (List.map_congr_left fun c hc => toUpper_of_mem_alphabet c (h c hc)).trans (List.map_id _)

theorem encode_mem_alphabet (data : List Nat) :
    ∀ c ∈ encode_base32_no_padding data, c ∈ B32_ALPHABET := by
  rw [encode_eq_chars]; exact b32encodeChars_mem data

theorem length_encode_crcBytes (text : Str) :
    (encode_base32_no_padding (crcBytes text)).length = 4 := by
  rw [encode_eq_chars, length_b32encodeChars]
  simp [crcBytes]

/-- C8: for every ASCII string `text` and every requested length in `2..4`,
`calculate_checksum` returns exactly `length` Base32-alphabet characters and
never takes the `'A'`-pad-fill branch (the Base32 encoding of the 2-byte CRC
is always 4 characters), and `validate_checksum text c` returns `true` for
`c = calculate_checksum text length` as well as for any case-variant of
`c`. -/
theorem c8_checksum_selfvalidation (text : Str) (hascii : ∀ c ∈ text, c.toNat < 128)
    (len : Nat) (h2 : 2 ≤ len) (h4 : len ≤ 4) :
    (calculate_checksum text len).length = len
    ∧ (∀ c ∈ calculate_checksum text len, c ∈ B32_ALPHABET)
    ∧ ¬ (encode_base32_no_padding (crcBytes text)).length < len
    ∧ validate_checksum text (calculate_checksum text len) = true
    ∧ (∀ cs : Str, cs.map Char.toUpper = (calculate_checksum text len).map Char.toUpper →
        validate_checksum text cs = true) := by
  have he4 := length_encode_crcBytes text
  have hnb : ¬ (encode_base32_no_padding (crcBytes text)).length < len := by omega
  have hcc : calculate_checksum text len
      = (encode_base32_no_padding (crcBytes text)).take len := by
    simp only [calculate_checksum]
    rw [if_neg hnb]
    exact map_toUpper_of_mem_alphabet _
      (fun c hc => encode_mem_alphabet _ c (List.take_subset _ _ hc))
  have hlen : (calculate_checksum text len).length = len := by
    rw [hcc, List.length_take]; omega
  have hmem : ∀ c ∈ calculate_checksum text len, c ∈ B32_ALPHABET := by
    rw [hcc]
    exact fun c hc => encode_mem_alphabet _ c (List.take_subset _ _ hc)
  have hupfix : (calculate_checksum text len).map Char.toUpper = calculate_checksum text len :=
    map_toUpper_of_mem_alphabet _ hmem
  refine ⟨hlen, hmem, hnb, ?_, ?_⟩
  · simp only [validate_checksum, hlen, hupfix]
    exact beq_self_eq_true _
  · intro cs hcs
    have hlcs : cs.length = len := by
      have := congrArg List.length hcs
      simpa [hlen] using this
    simp only [validate_checksum, hlcs, hcs, hupfix]
    exact beq_self_eq_true _

/-- Witness for C8 at the concrete chunk text `"MFRGG"` and length 3. -/
theorem c8_checksum_selfvalidation_witness :
    (calculate_checksum (("MFRGG").data) 3).length = 3
    ∧ validate_checksum (("MFRGG").data) (calculate_checksum (("MFRGG").data) 3) = true :=
  ⟨(c8_checksum_selfvalidation (("MFRGG").data) (by decide) 3 (by decide) (by decide)).1,
   (c8_checksum_selfvalidation (("MFRGG").data) (by decide) 3 (by decide) (by decide)).2.2.2.1⟩

/-- C9: for every requested length in `4..8` and every byte string of the
generated size `(length*5+7)/8`, `generate_session_id` returns exactly
`length` characters of the uppercase Base32 alphabet: the random bytes
always encode to at least `length` Base32 characters, so the truncation
never yields a short id. -/
theorem c9_session_id (len : Nat) (h4 : 4 ≤ len) (h8 : len ≤ 8)
    (rb : List Nat) (hrb : rb.length = (len * 5 + 7) / 8) :
    (generate_session_id len rb).length = len
    ∧ ∀ c ∈ generate_session_id len rb, c ∈ B32_ALPHABET := by
  have hel := length_b32encodeChars rb
  rw [← encode_eq_chars] at hel
  have hge : len ≤ (encode_base32_no_padding rb).length := by omega
  constructor
  · simp only [generate_session_id, List.length_map, List.length_take]
    omega
  · intro c hc
    simp only [generate_session_id, List.mem_map] at hc
    obtain ⟨c', hc', rfl⟩ := hc
    have hm : c' ∈ B32_ALPHABET :=
      encode_mem_alphabet _ c' (List.take_subset _ _ hc')
    rw [toUpper_of_mem_alphabet c' hm]
    exact hm

/-- Witness for C9 at length 6 with the four zero bytes. -/
theorem c9_session_id_witness :
    (generate_session_id 6 [0, 0, 0, 0]).length = 6
    ∧ ∀ c ∈ generate_session_id 6 [0, 0, 0, 0], c ∈ B32_ALPHABET :=
  c9_session_id 6 (by decide) (by decide) [0, 0, 0, 0] (by decide)

theorem digitChar_toNat : ∀ d, d < 10 → (digitChar d).toNat = 48 + d := by decide

theorem natOfDigits_append_digit (l : Str) (c : Char) :
    natOfDigits (l ++ [c]) = 10 * natOfDigits l + (c.toNat - 48) := by
  simp [natOfDigits, List.foldl_append]

theorem natOfDigits_natCharsRevF :
    ∀ fuel n, n ≤ fuel → natOfDigits (natCharsRevF fuel n).reverse = n
  | _, 0, _ => by simp [natCharsRevF, natOfDigits]
  | 0, n + 1, h => by omega
  | fuel + 1, n + 1, h => by
      rw [natCharsRevF, List.reverse_cons, natOfDigits_append_digit,
        natOfDigits_natCharsRevF fuel ((n + 1) / 10) (by omega),
        digitChar_toNat _ (by omega)]
      omega

theorem natOfDigits_natCharsRev (n : Nat) : natOfDigits (natCharsRev n).reverse = n :=
  natOfDigits_natCharsRevF n n le_rfl

theorem natOfDigits_cons_zero (t : Str) : natOfDigits ('0' :: t) = natOfDigits t := by
  simp [natOfDigits]

theorem natOfDigits_replicate_zero (k : Nat) (s : Str) :
    natOfDigits (List.replicate k '0' ++ s) = natOfDigits s := by
  induction k with
  | zero => simp
  | succ m ih => rw [List.replicate_succ, List.cons_append, natOfDigits_cons_zero, ih]

theorem natOfDigits_zfill4 (n : Nat) : natOfDigits (zfill4 n) = n := by
  unfold zfill4
  rw [natOfDigits_replicate_zero]
  unfold natStr
  by_cases h : n = 0
  · subst h; simp [natOfDigits]
  · rw [if_neg h]; exact natOfDigits_natCharsRev n

theorem zfill4_injective : Function.Injective zfill4 := by
  intro a b h
  have := congrArg natOfDigits h
  simpa [natOfDigits_zfill4] using this

/-- C7: for every chunk and every DONE record, the client transmits a query
only if the assembled left-most label is at most 63 characters; when the
label is longer (or the chunk text fails Base32 validation),
`send_chunk`/`send_done` reject locally without any transport call, so no
transmitted label ever exceeds 63 characters. -/
theorem c7_label_bound (session_id : Str) (checksum_length : Nat) (chunk_id : Nat)
    (chunk : Str) (total_chunks : Nat) (label : Str) :
    (send_chunk_decision session_id checksum_length chunk_id chunk
        = SendDecision.transmit label → label.length ≤ 63)
    ∧ (send_done_decision session_id total_chunks
        = SendDecision.transmit label → label.length ≤ 63) := by
  constructor
  · intro h
    simp only [send_chunk_decision] at h
    split at h
    · cases h
    · split at h
      · cases h
      · cases h
        omega
  · intro h
    simp only [send_done_decision] at h
    split at h
    · cases h
    · cases h
      omega

/-- Witness for C7: a concrete chunk record that is transmitted, with its
label within the 63-character bound. -/
theorem c7_label_bound_witness :
    send_chunk_decision (("ABCDEF").data) 3 7 (("MFRGGZDF").data)
      = SendDecision.transmit (send_chunk_label (("ABCDEF").data) 3 7 (("MFRGGZDF").data))
    ∧ (send_chunk_label (("ABCDEF").data) 3 7 (("MFRGGZDF").data)).length ≤ 63 :=
  ⟨by decide, (c7_label_bound (("ABCDEF").data) 3 7 (("MFRGGZDF").data) 0 _).1 (by decide)⟩

/-- C10: for an empty input file, `chunk_data` produces an empty chunk list
and `exfiltrate_file` returns `False` without transmitting any chunk or
DONE record: the success-rate computation divides by the zero chunk count
and the resulting error is contained to a `False` return. -/
theorem c10_empty_file (chunk_size : Nat) (delivered : Nat → Bool) :
    chunk_data chunk_size [] = []
    ∧ exfiltrate_file chunk_size delivered [] = (false, []) := by
  have henc : encode_base32_no_padding ([] : List Nat) = [] := by decide
  have hcd : chunk_data chunk_size [] = [] := by
    unfold chunk_data
    rw [henc]
    unfold chunkEvery
    simp
  exact ⟨hcd, by simp [exfiltrate_file, hcd]⟩

/-- C3 is false as stated: starting from `current_rate = base_rate_limit`,
a single slow observation (response time 2 s) drives the rate to
`max(base*0.5, base*0.9) = 67.5 < 75 = base_rate_limit`, leaving the
claimed interval `[base_rate_limit, max_rate_limit]`. -/
theorem c3_counterexample :
    (update_rate rateCfg75 (initRateState rateCfg75) 2).current_rate
      < rateCfg75.base_rate_limit := by
  norm_num [update_rate, initRateState, rateCfg75]

theorem update_rate_bounds (cfg : RateConfig) (h0 : 0 < cfg.base_rate_limit)
    (hbm : cfg.base_rate_limit ≤ cfg.max_rate_limit) (st : RateState) (t : ℚ)
    (h1 : cfg.base_rate_limit / 2 ≤ st.current_rate)
    (h2 : st.current_rate ≤ cfg.max_rate_limit) :
    cfg.base_rate_limit / 2 ≤ (update_rate cfg st t).current_rate
    ∧ (update_rate cfg st t).current_rate ≤ cfg.max_rate_limit := by
  have hr0 : (0 : ℚ) ≤ st.current_rate := by linarith
  simp only [update_rate]
  by_cases hen : cfg.enable_adaptive_rate
  · rw [if_neg (not_not_intro hen)]
    have hstep : ∀ rts : List ℚ,
        cfg.base_rate_limit / 2 ≤ (if 1 < rts.sum / (rts.length : ℚ) then
            ({ current_rate := max (cfg.base_rate_limit * (1 / 2)) (st.current_rate * (9 / 10)),
               response_times := rts } : RateState)
          else if rts.sum / (rts.length : ℚ) < 1 / 10 then
            { current_rate := min cfg.max_rate_limit (st.current_rate * (11 / 10)),
              response_times := rts }
          else { st with response_times := rts }).current_rate
        ∧ (if 1 < rts.sum / (rts.length : ℚ) then
            ({ current_rate := max (cfg.base_rate_limit * (1 / 2)) (st.current_rate * (9 / 10)),
               response_times := rts } : RateState)
          else if rts.sum / (rts.length : ℚ) < 1 / 10 then
            { current_rate := min cfg.max_rate_limit (st.current_rate * (11 / 10)),
              response_times := rts }
          else { st with response_times := rts }).current_rate ≤ cfg.max_rate_limit := by
      intro rts
      split
      · refine ⟨?_, ?_⟩
        · dsimp only
          have hh : cfg.base_rate_limit / 2 = cfg.base_rate_limit * (1 / 2) := by ring
          rw [hh]
          exact le_max_left _ _
        · dsimp only
          apply max_le <;> linarith
      · split
        · refine ⟨?_, ?_⟩
          · dsimp only
            apply le_min <;> linarith
          · dsimp only
            exact min_le_left _ _
        · exact ⟨h1, h2⟩
    exact hstep _
  · rw [if_pos (by simpa using hen)]
    exact ⟨h1, h2⟩

/-- C3 amended: starting from `current_rate = base_rate_limit`, after every
sequence of successful-query observations processed by `_update_rate`, the
rate stays within the closed interval
`[base_rate_limit * 0.5, max_rate_limit]` (the code's lower clamp is half
the base rate, not the base rate itself). -/
theorem c3_amended_rate_bounds (cfg : RateConfig) (h0 : 0 < cfg.base_rate_limit)
    (hbm : cfg.base_rate_limit ≤ cfg.max_rate_limit) (obs : List ℚ) :
    cfg.base_rate_limit / 2
        ≤ (obs.foldl (update_rate cfg) (initRateState cfg)).current_rate
    ∧ (obs.foldl (update_rate cfg) (initRateState cfg)).current_rate
        ≤ cfg.max_rate_limit := by
  have key : ∀ (l : List ℚ) (st : RateState),
      cfg.base_rate_limit / 2 ≤ st.current_rate → st.current_rate ≤ cfg.max_rate_limit →
      cfg.base_rate_limit / 2 ≤ (l.foldl (update_rate cfg) st).current_rate
      ∧ (l.foldl (update_rate cfg) st).current_rate ≤ cfg.max_rate_limit := by
    intro l
    induction l with
    | nil => intro st hl hu; exact ⟨hl, hu⟩
    | cons t ts ih =>
        intro st hl hu
        obtain ⟨hl', hu'⟩ := update_rate_bounds cfg h0 hbm st t hl hu
        exact ih _ hl' hu'
  exact key obs (initRateState cfg) (by simp [initRateState]; linarith) (by simp [initRateState, hbm])

/-- Witness for the amended C3 at the default configuration with one slow
observation. -/
theorem c3_amended_rate_bounds_witness :
    rateCfg75.base_rate_limit / 2
        ≤ (([2] : List ℚ).foldl (update_rate rateCfg75) (initRateState rateCfg75)).current_rate
    ∧ (([2] : List ℚ).foldl (update_rate rateCfg75) (initRateState rateCfg75)).current_rate
        ≤ rateCfg75.max_rate_limit :=
  c3_amended_rate_bounds rateCfg75 (by norm_num [rateCfg75]) (by norm_num [rateCfg75]) [2]

theorem mem_keys_of_lookupA {α : Type} (l : List (Str × α)) (k : Str)
    (h : (lookupA l k).isSome) : k ∈ l.map Prod.fst := by
  induction l with
  | nil => simp [lookupA] at h
  | cons p t ih =>
      obtain ⟨k', v⟩ := p
      by_cases he : k' = k
      · simp only [List.map_cons]
        exact List.mem_cons.mpr (Or.inl he.symm)
      · simp only [lookupA, if_neg he] at h
        simp only [List.map_cons]
        exact List.mem_cons.mpr (Or.inr (ih h))

theorem collectAvail_lookup (chunks : List (Str × Str)) :
    ∀ (fuel i j : Nat), j < (collectAvail chunks fuel i).length →
      (lookupA chunks (zfill4 (i + j))).isSome := by
  intro fuel
  induction fuel with
  | zero => intro i j h; simp [collectAvail] at h
  | succ n ih =>
      intro i j h
      cases hl : lookupA chunks (zfill4 i) with
      | none => simp [collectAvail, hl] at h
      | some v =>
          have hz : collectAvail chunks (n + 1) i = v :: collectAvail chunks n (i + 1) := by
            simp [collectAvail, hl]
          rw [hz] at h
          simp only [List.length_cons] at h
          cases j with
          | zero => rw [Nat.add_zero, hl]; rfl
          | succ m =>
              have harr : i + (m + 1) = (i + 1) + m := by omega
              rw [harr]
              exact ih (i + 1) m (by omega)

theorem collectAvail_stop (chunks : List (Str × Str)) :
    ∀ (fuel i : Nat), (collectAvail chunks fuel i).length < fuel →
      lookupA chunks (zfill4 (i + (collectAvail chunks fuel i).length)) = none := by
  intro fuel
  induction fuel with
  | zero => intro i h; omega
  | succ n ih =>
      intro i h
      cases hl : lookupA chunks (zfill4 i) with
      | none =>
          have hz : collectAvail chunks (n + 1) i = [] := by simp [collectAvail, hl]
          rw [hz]
          simpa using hl
      | some v =>
          have hz : collectAvail chunks (n + 1) i = v :: collectAvail chunks n (i + 1) := by
            simp [collectAvail, hl]
          rw [hz] at h ⊢
          simp only [List.length_cons] at h ⊢
          have h2 : (collectAvail chunks n (i + 1)).length < n := by omega
          have harr : i + ((collectAvail chunks n (i + 1)).length + 1)
              = (i + 1) + (collectAvail chunks n (i + 1)).length := by omega
          rw [harr]
          exact ih (i + 1) h2

theorem collectAvail_length_le (chunks : List (Str × Str)) (fuel i : Nat) :
    (collectAvail chunks fuel i).length ≤ distinctKeyCount chunks := by
  set m := (collectAvail chunks fuel i).length with hm
  have hkeys : ∀ j < m, zfill4 (i + j) ∈ chunks.map Prod.fst := fun j hj =>
    mem_keys_of_lookupA _ _ (collectAvail_lookup chunks fuel i j hj)
  have hinj : Function.Injective (fun j : Nat => zfill4 (i + j)) := by
    intro a b hab
    have := zfill4_injective hab
    omega
  have hnodup : ((List.range m).map (fun j => zfill4 (i + j))).Nodup :=
    (List.nodup_range m).map hinj
  have hsub : ((List.range m).map (fun j => zfill4 (i + j))).toFinset
      ⊆ (chunks.map Prod.fst).toFinset := by
    intro x hx
    simp only [List.mem_toFinset, List.mem_map, List.mem_range] at hx
    obtain ⟨j, hj, rfl⟩ := hx
    simpa [List.mem_toFinset] using hkeys j hj
  have hcard := Finset.card_le_card hsub
  rw [List.toFinset_card_of_nodup hnodup, List.card_toFinset] at hcard
  simpa [distinctKeyCount] using hcard

theorem distinctKeyCount_le (chunks : List (Str × Str)) :
    distinctKeyCount chunks ≤ chunks.length := by
  have := List.Sublist.length_le (List.dedup_sublist (chunks.map Prod.fst))
  simpa [distinctKeyCount] using this

theorem try_write_some_count (st : ResolverState) (sid : Str) (N : Nat) (out : List Nat)
    (chunks : List (Str × Str))
    (hc : lookupA st.data_chunks sid = some chunks)
    (he : lookupA st.expected_total_chunks sid = some N)
    (hw : try_write_to_file st sid = some out) :
    (collectAvail chunks (chunks.length + 1) 0).length = N := by
  simp only [try_write_to_file, hc, he] at hw
  set avail := collectAvail chunks (chunks.length + 1) 0 with ha
  by_cases h1 : chunks = []
  · rw [if_pos h1] at hw; simp at hw
  · rw [if_neg h1] at hw
    by_cases h2 : avail = []
    · rw [if_pos h2] at hw; simp at hw
    · rw [if_neg h2] at hw
      by_cases h3 : ¬ is_valid_base32 avail.flatten
      · rw [if_pos h3] at hw; simp at hw
      · rw [if_neg h3] at hw
        by_cases h4 : ¬ (avail.flatten.length % 8 = 0 ∨ avail.flatten.length % 8 = 2
            ∨ avail.flatten.length % 8 = 4 ∨ avail.flatten.length % 8 = 5
            ∨ avail.flatten.length % 8 = 7)
        · rw [if_pos h4] at hw; simp at hw
        · rw [if_neg h4] at hw
          by_cases h5 : avail.length ≠ N
          · rw [if_pos h5] at hw; simp at hw
          · exact not_ne_iff.mp h5

theorem try_write_none_of_count_ne (st : ResolverState) (sid : Str) (N : Nat)
    (chunks : List (Str × Str))
    (hc : lookupA st.data_chunks sid = some chunks)
    (he : lookupA st.expected_total_chunks sid = some N)
    (hne : (collectAvail chunks (chunks.length + 1) 0).length ≠ N) :
    try_write_to_file st sid = none := by
  simp only [try_write_to_file, hc, he]
  set avail := collectAvail chunks (chunks.length + 1) 0 with ha
  by_cases h1 : chunks = []
  · rw [if_pos h1]
  · rw [if_neg h1]
    by_cases h2 : avail = []
    · rw [if_pos h2]
    · rw [if_neg h2]
      by_cases h3 : ¬ is_valid_base32 avail.flatten
      · rw [if_pos h3]
      · rw [if_neg h3]
        by_cases h4 : ¬ (avail.flatten.length % 8 = 0 ∨ avail.flatten.length % 8 = 2
            ∨ avail.flatten.length % 8 = 4 ∨ avail.flatten.length % 8 = 5
            ∨ avail.flatten.length % 8 = 7)
        · rw [if_pos h4]
        · rw [if_neg h4]
          rw [if_pos hne]

/-- C2: for a session whose `expected_total` is `N`, the flush
(`try_write_to_file`) produces output only when the contiguous prefix
`0..N-1` is stored with no chunk at sequence `N`; in particular storing only
`N-1` distinct chunks, or `N` chunks with a gap below `N`, writes no file. -/
theorem c2_completion_exactness (st : ResolverState) (sid : Str) (N : Nat)
    (chunks : List (Str × Str))
    (hc : lookupA st.data_chunks sid = some chunks)
    (he : lookupA st.expected_total_chunks sid = some N) :
    (∀ out, try_write_to_file st sid = some out →
        (∀ i, i < N → (lookupA chunks (zfill4 i)).isSome)
        ∧ lookupA chunks (zfill4 N) = none)
    ∧ (distinctKeyCount chunks + 1 = N → try_write_to_file st sid = none)
    ∧ ((∃ i, i < N ∧ lookupA chunks (zfill4 i) = none) →
        try_write_to_file st sid = none) := by
  have hmle : (collectAvail chunks (chunks.length + 1) 0).length ≤ distinctKeyCount chunks :=
    collectAvail_length_le chunks _ 0
  have hdle : distinctKeyCount chunks ≤ chunks.length := distinctKeyCount_le chunks
  refine ⟨?_, ?_, ?_⟩
  · intro out hw
    have hmN := try_write_some_count st sid N out chunks hc he hw
    constructor
    · intro i hi
      have := collectAvail_lookup chunks (chunks.length + 1) 0 i (by omega)
      simpa using this
    · have hstop := collectAvail_stop chunks (chunks.length + 1) 0 (by omega)
      rw [hmN] at hstop
      simpa using hstop
  · intro hcount
    exact try_write_none_of_count_ne st sid N chunks hc he (by omega)
  · rintro ⟨i, hi, hnone⟩
    apply try_write_none_of_count_ne st sid N chunks hc he
    intro hEq
    have := collectAvail_lookup chunks (chunks.length + 1) 0 i (by omega)
    rw [Nat.zero_add, hnone] at this
    simp at this

/-- Witness for C2: with only one chunk stored and `expected_total = 2`
(a gap at sequence 1), the flush writes nothing. -/
theorem c2_completion_exactness_witness :
    try_write_to_file c2state (("AAAA").data) = none :=
  (c2_completion_exactness c2state (("AAAA").data) 2
    [(("0000").data, ("MFRG").data)] (by decide) (by decide)).2.2
    ⟨1, by decide, by decide⟩

theorem minByKey_mem (key : Str → ℚ) (l : List Str) : ∀ b, minByKey key b l ∈ b :: l := by
  induction l with
  | nil => intro b; simp [minByKey]
  | cons x xs ih =>
      intro b
      simp only [minByKey]
      split
      · exact List.mem_cons_of_mem b (ih x)
      · rcases List.mem_cons.mp (ih b) with h | h
        · exact List.mem_cons.mpr (Or.inl h)
        · exact List.mem_cons_of_mem b (List.mem_cons_of_mem x h)

theorem lookupA_eraseA_self {α : Type} (l : List (Str × α)) (a : Str) :
    lookupA (eraseA l a) a = none := by
  induction l with
  | nil => simp [eraseA, lookupA]
  | cons p t ih =>
      obtain ⟨k', v⟩ := p
      simp only [eraseA]
      by_cases hka : k' = a
      · rw [if_pos hka]; exact ih
      · rw [if_neg hka]
        simp only [lookupA, if_neg hka]
        exact ih

theorem lookupA_eraseA_ne {α : Type} (l : List (Str × α)) (a k : Str) (h : k ≠ a) :
    lookupA (eraseA l a) k = lookupA l k := by
  induction l with
  | nil => simp [eraseA]
  | cons p t ih =>
      obtain ⟨k', v⟩ := p
      simp only [eraseA]
      by_cases hka : k' = a
      · rw [if_pos hka]
        simp only [lookupA]
        rw [if_neg (fun hh : k' = k => h (by rw [← hh, hka]))]
        exact ih
      · rw [if_neg hka]
        simp only [lookupA]
        by_cases hk'k : k' = k
        · rw [if_pos hk'k, if_pos hk'k]
        · rw [if_neg hk'k, if_neg hk'k]
          exact ih

theorem lookupA_eraseA_or_none {α : Type} (l : List (Str × α)) (a k : Str) :
    lookupA (eraseA l a) k = lookupA l k ∨ lookupA (eraseA l a) k = none := by
  by_cases h : k = a
  · exact Or.inr (h ▸ lookupA_eraseA_self l a)
  · exact Or.inl (lookupA_eraseA_ne l a k h)

theorem lookupA_or_none_trans {α : Type} {x y z : Option α}
    (h1 : x = y ∨ x = none) (h2 : y = z ∨ y = none) : x = z ∨ x = none := by
  rcases h1 with h1 | h1
  · rcases h2 with h2 | h2
    · exact Or.inl (h1.trans h2)
    · exact Or.inr (h1.trans h2)
  · exact Or.inr h1

theorem mem_keys_eraseA {α : Type} (l : List (Str × α)) (a k : Str)
    (h : k ∈ (eraseA l a).map Prod.fst) : k ∈ l.map Prod.fst ∧ k ≠ a := by
  induction l with
  | nil => simp [eraseA] at h
  | cons p t ih =>
      obtain ⟨k', v⟩ := p
      simp only [eraseA] at h
      by_cases hka : k' = a
      · rw [if_pos hka] at h
        obtain ⟨h1, h2⟩ := ih h
        refine ⟨?_, h2⟩
        simp only [List.map_cons]
        exact List.mem_cons.mpr (Or.inr h1)
      · rw [if_neg hka] at h
        simp only [List.map_cons, List.mem_cons] at h
        rcases h with h | h
        · refine ⟨?_, ?_⟩
          · simp only [List.map_cons]
            exact List.mem_cons.mpr (Or.inl h)
          · intro hh
            exact hka (by rw [← h, hh])
        · obtain ⟨h1, h2⟩ := ih h
          refine ⟨?_, h2⟩
          simp only [List.map_cons]
          exact List.mem_cons.mpr (Or.inr h1)

theorem evictLoop_spec (cfg : Config) :
    ∀ (fuel : Nat) (st : ResolverState) (cands : List Str) (cur : Str),
      (∀ c ∈ cands, c ≠ cur) →
      cands.length ≤ fuel →
      (∀ k ∈ st.data_chunks.map Prod.fst, k = cur ∨ k ∈ cands) →
      lookupA (evictLoop cfg fuel st cands).data_chunks cur = lookupA st.data_chunks cur
      ∧ ((evictLoop cfg fuel st cands).data_chunks.length < cfg.max_sessions
          ∧ totalChunks (evictLoop cfg fuel st cands).data_chunks ≤ cfg.max_total_chunks
        ∨ ∀ k ∈ (evictLoop cfg fuel st cands).data_chunks.map Prod.fst, k = cur) := by
  intro fuel
  induction fuel with
  | zero =>
      intro st cands cur h1 h2 h3
      have hc : cands = [] := List.length_eq_zero.mp (Nat.le_zero.mp h2)
      subst hc
      refine ⟨rfl, Or.inr ?_⟩
      intro k hk
      rcases h3 k hk with h | h
      · exact h
      · simp at h
  | succ n ih =>
      intro st cands cur h1 h2 h3
      cases cands with
      | nil =>
          refine ⟨rfl, Or.inr ?_⟩
          intro k hk
          rcases h3 k hk with h | h
          · exact h
          · simp at h
      | cons c cs =>
          simp only [evictLoop]
          split
          · set oldest := minByKey (fun sid => lookupD st.session_first_seen sid 0) c cs
              with ho
            have hom : oldest ∈ c :: cs := minByKey_mem _ cs c
            have honc : oldest ≠ cur := h1 oldest hom
            have hcand' : ∀ x ∈ (c :: cs).erase oldest, x ≠ cur := fun x hx =>
              h1 x (List.mem_of_mem_erase hx)
            have hlen' : ((c :: cs).erase oldest).length ≤ n := by
              rw [List.length_erase_of_mem hom]
              simp only [List.length_cons] at h2 ⊢
              omega
            have hkeys' : ∀ k ∈ (removeSession st oldest).data_chunks.map Prod.fst,
                k = cur ∨ k ∈ (c :: cs).erase oldest := by
              intro k hk
              have hk2 : k ∈ st.data_chunks.map Prod.fst ∧ k ≠ oldest :=
                mem_keys_eraseA st.data_chunks oldest k hk
              rcases h3 k hk2.1 with h | h
              · exact Or.inl h
              · exact Or.inr ((List.mem_erase_of_ne hk2.2).mpr h)
            obtain ⟨hl, hr⟩ := ih (removeSession st oldest) ((c :: cs).erase oldest) cur
              hcand' hlen' hkeys'
            refine ⟨?_, hr⟩
            rw [hl]
            exact lookupA_eraseA_ne st.data_chunks oldest cur (fun hh => honc hh.symm)
          · rename_i hcond
            push_neg at hcond
            exact ⟨rfl, Or.inl ⟨by omega, hcond.2⟩⟩

/-- C6 amended: after the eviction pass `_evict_oldest_sessions` has run,
either the number of tracked sessions is below `max_sessions` and the sum
of stored chunks is at most `max_total_chunks`, or every remaining tracked
session is the one currently being serviced (candidate exhaustion: eviction
never touches the serviced session, so it cannot enforce the bounds once it
is the only session left). The serviced session's chunk map is always
preserved. -/
theorem c6_amended_capacity (cfg : Config) (st : ResolverState) (cur : Str) :
    lookupA (evict_oldest_sessions cfg st (some cur)).data_chunks cur
        = lookupA st.data_chunks cur
    ∧ ((evict_oldest_sessions cfg st (some cur)).data_chunks.length < cfg.max_sessions
        ∧ totalChunks (evict_oldest_sessions cfg st (some cur)).data_chunks
            ≤ cfg.max_total_chunks
      ∨ ∀ k ∈ (evict_oldest_sessions cfg st (some cur)).data_chunks.map Prod.fst,
          k = cur) := by
  unfold evict_oldest_sessions
  apply evictLoop_spec cfg _ st _ cur
  · intro c hc
    simp only [List.mem_filter, decide_eq_true_eq] at hc
    intro hEq
    exact hc.2 (by rw [hEq])
  · exact le_rfl
  · intro k hk
    by_cases h : k = cur
    · exact Or.inl h
    · refine Or.inr ?_
      simp only [List.mem_filter, decide_eq_true_eq]
      exact ⟨hk, by simpa using h⟩

/-- C6 is false as stated: with `max_sessions = 1`, running the eviction
pass while servicing the already-tracked session `"AAAA"` finds no
candidates (the serviced session is excluded) and terminates with
`len(sessions) = 1`, which is not below `max_sessions`. -/
theorem c6_counterexample :
    (evict_oldest_sessions evictCfg1 evictState1
        (some (("AAAA").data))).data_chunks.length = 1
    ∧ ¬ ((evict_oldest_sessions evictCfg1 evictState1
        (some (("AAAA").data))).data_chunks.length < evictCfg1.max_sessions) :=
  ⟨by decide, by decide⟩

theorem lookupA_insertA_self {α : Type} (l : List (Str × α)) (k : Str) (v : α) :
    lookupA (insertA l k v) k = some v := by
  induction l with
  | nil => simp [insertA, lookupA]
  | cons p t ih =>
      obtain ⟨k', v'⟩ := p
      simp only [insertA]
      by_cases h : k' = k
      · rw [if_pos h]
        simp [lookupA, h]
      · rw [if_neg h]
        simp only [lookupA, if_neg h]
        exact ih

theorem lookupA_insertA_ne {α : Type} (l : List (Str × α)) (k : Str) (v : α) (s : Str)
    (h : s ≠ k) : lookupA (insertA l k v) s = lookupA l s := by
  induction l with
  | nil =>
      simp only [insertA, lookupA]
      rw [if_neg (fun hh : k = s => h hh.symm)]
  | cons p t ih =>
      obtain ⟨k', v'⟩ := p
      simp only [insertA]
      by_cases hk : k' = k
      · rw [if_pos hk]
        simp only [lookupA]
        rw [if_neg (fun hh : k' = s => h (by rw [← hh, hk])),
          if_neg (fun hh : k' = s => h (by rw [← hh, hk]))]
      · rw [if_neg hk]
        simp only [lookupA]
        by_cases hks : k' = s
        · rw [if_pos hks, if_pos hks]
        · rw [if_neg hks, if_neg hks]
          exact ih

theorem foldl_removeSession_chunks_or_none :
    ∀ (l : List Str) (st : ResolverState) (k : Str),
      lookupA (l.foldl removeSession st).data_chunks k = lookupA st.data_chunks k
      ∨ lookupA (l.foldl removeSession st).data_chunks k = none := by
  intro l
  induction l with
  | nil => intro st k; exact Or.inl rfl
  | cons a t ih =>
      intro st k
      exact lookupA_or_none_trans (ih (removeSession st a) k)
        (lookupA_eraseA_or_none st.data_chunks a k)

theorem foldl_removeSession_expected_or_none :
    ∀ (l : List Str) (st : ResolverState) (k : Str),
      lookupA (l.foldl removeSession st).expected_total_chunks k
          = lookupA st.expected_total_chunks k
      ∨ lookupA (l.foldl removeSession st).expected_total_chunks k = none := by
  intro l
  induction l with
  | nil => intro st k; exact Or.inl rfl
  | cons a t ih =>
      intro st k
      exact lookupA_or_none_trans (ih (removeSession st a) k)
        (lookupA_eraseA_or_none st.expected_total_chunks a k)

theorem evictLoop_chunks_or_none (cfg : Config) :
    ∀ (fuel : Nat) (st : ResolverState) (cands : List Str) (k : Str),
      lookupA (evictLoop cfg fuel st cands).data_chunks k = lookupA st.data_chunks k
      ∨ lookupA (evictLoop cfg fuel st cands).data_chunks k = none := by
  intro fuel
  induction fuel with
  | zero => intro st cands k; exact Or.inl rfl
  | succ n ih =>
      intro st cands k
      cases cands with
      | nil => exact Or.inl rfl
      | cons c cs =>
          simp only [evictLoop]
          split
          · exact lookupA_or_none_trans (ih _ _ k)
              (lookupA_eraseA_or_none st.data_chunks _ k)
          · exact Or.inl rfl

theorem evictLoop_expected_or_none (cfg : Config) :
    ∀ (fuel : Nat) (st : ResolverState) (cands : List Str) (k : Str),
      lookupA (evictLoop cfg fuel st cands).expected_total_chunks k
          = lookupA st.expected_total_chunks k
      ∨ lookupA (evictLoop cfg fuel st cands).expected_total_chunks k = none := by
  intro fuel
  induction fuel with
  | zero => intro st cands k; exact Or.inl rfl
  | succ n ih =>
      intro st cands k
      cases cands with
      | nil => exact Or.inl rfl
      | cons c cs =>
          simp only [evictLoop]
          split
          · exact lookupA_or_none_trans (ih _ _ k)
              (lookupA_eraseA_or_none st.expected_total_chunks _ k)
          · exact Or.inl rfl

theorem touchActivity_chunks (st : ResolverState) (sid : Str) (now : ℚ) :
    (touchActivity st sid now).data_chunks = st.data_chunks := rfl

theorem touchActivity_expected (st : ResolverState) (sid : Str) (now : ℚ) :
    (touchActivity st sid now).expected_total_chunks = st.expected_total_chunks := rfl

theorem touchFirstSeen_chunks (st : ResolverState) (sid : Str) (now : ℚ) :
    (touchFirstSeen st sid now).data_chunks = st.data_chunks := by
  unfold touchFirstSeen
  split <;> rfl

theorem touchFirstSeen_expected (st : ResolverState) (sid : Str) (now : ℚ) :
    (touchFirstSeen st sid now).expected_total_chunks = st.expected_total_chunks := by
  unfold touchFirstSeen
  split <;> rfl

theorem preprocess_chunks_or_none (cfg : Config) (st : ResolverState) (now : ℚ)
    (sid k : Str) :
    lookupA (preprocessData cfg st now sid).data_chunks k = lookupA st.data_chunks k
    ∨ lookupA (preprocessData cfg st now sid).data_chunks k = none := by
  unfold preprocessData evict_oldest_sessions
  have h4 := evictLoop_chunks_or_none cfg
    ((((touchFirstSeen (touchActivity (expire_idle_sessions cfg st now) sid now) sid
        now).data_chunks.map Prod.fst).filter
        (fun x => decide (some x ≠ some sid))).length)
    (touchFirstSeen (touchActivity (expire_idle_sessions cfg st now) sid now) sid now)
    (((touchFirstSeen (touchActivity (expire_idle_sessions cfg st now) sid now) sid
        now).data_chunks.map Prod.fst).filter
        (fun x => decide (some x ≠ some sid)))
    k
  have h5 : lookupA (touchFirstSeen (touchActivity (expire_idle_sessions cfg st now) sid
      now) sid now).data_chunks k
      = lookupA (expire_idle_sessions cfg st now).data_chunks k := by
    rw [touchFirstSeen_chunks, touchActivity_chunks]
  have h1 : lookupA (expire_idle_sessions cfg st now).data_chunks k
      = lookupA st.data_chunks k
      ∨ lookupA (expire_idle_sessions cfg st now).data_chunks k = none := by
    unfold expire_idle_sessions
    exact foldl_removeSession_chunks_or_none _ st k
  exact lookupA_or_none_trans (lookupA_or_none_trans h4 (Or.inl h5)) h1

theorem preprocess_expected_or_none (cfg : Config) (st : ResolverState) (now : ℚ)
    (sid k : Str) :
    lookupA (preprocessData cfg st now sid).expected_total_chunks k
        = lookupA st.expected_total_chunks k
    ∨ lookupA (preprocessData cfg st now sid).expected_total_chunks k = none := by
  unfold preprocessData evict_oldest_sessions
  have h4 := evictLoop_expected_or_none cfg
    ((((touchFirstSeen (touchActivity (expire_idle_sessions cfg st now) sid now) sid
        now).data_chunks.map Prod.fst).filter
        (fun x => decide (some x ≠ some sid))).length)
    (touchFirstSeen (touchActivity (expire_idle_sessions cfg st now) sid now) sid now)
    (((touchFirstSeen (touchActivity (expire_idle_sessions cfg st now) sid now) sid
        now).data_chunks.map Prod.fst).filter
        (fun x => decide (some x ≠ some sid)))
    k
  have h5 : lookupA (touchFirstSeen (touchActivity (expire_idle_sessions cfg st now) sid
      now) sid now).expected_total_chunks k
      = lookupA (expire_idle_sessions cfg st now).expected_total_chunks k := by
    rw [touchFirstSeen_expected, touchActivity_expected]
  have h1 : lookupA (expire_idle_sessions cfg st now).expected_total_chunks k
      = lookupA st.expected_total_chunks k
      ∨ lookupA (expire_idle_sessions cfg st now).expected_total_chunks k = none := by
    unfold expire_idle_sessions
    exact foldl_removeSession_expected_or_none _ st k
  exact lookupA_or_none_trans (lookupA_or_none_trans h4 (Or.inl h5)) h1

theorem resolveData_expected_eq (cfg : Config) (st : ResolverState) (now : ℚ)
    (a b c d : Str) :
    (resolveData cfg st now a b c d).1.expected_total_chunks
      = (preprocessData cfg st now a).expected_total_chunks := by
  unfold resolveData
  repeat' split
  all_goals rfl

theorem resolveData_nx_state (cfg : Config) (st : ResolverState) (now : ℚ)
    (a b c d : Str) (h : (resolveData cfg st now a b c d).2 = Rcode.nxdomain) :
    (resolveData cfg st now a b c d).1 = preprocessData cfg st now a := by
  unfold resolveData at h ⊢
  by_cases h1 : ¬ is_valid_base32 a
  · rw [if_pos h1]
  · rw [if_neg h1] at h ⊢
    by_cases h2 : ¬ (b.length = 4 ∧ b.all Char.isDigit)
    · rw [if_pos h2]
    · rw [if_neg h2] at h ⊢
      by_cases h3 : ¬ is_valid_base32 c
      · rw [if_pos h3]
      · rw [if_neg h3] at h ⊢
        by_cases h4 : ¬ is_valid_base32 d
        · rw [if_pos h4]
        · rw [if_neg h4] at h ⊢
          by_cases h5 : ¬ validate_checksum c d
          · rw [if_pos h5]
          · rw [if_neg h5] at h
            simp at h

theorem resolveAfterRate_expected (cfg : Config) (st : ResolverState) (now : ℚ)
    (q s : Str) :
    lookupA (resolveAfterRate cfg st now q).1.expected_total_chunks s
        = lookupA st.expected_total_chunks s
    ∨ lookupA (resolveAfterRate cfg st now q).1.expected_total_chunks s = none
    ∨ ∃ t, isDoneRecordFor q s t
        ∧ lookupA (resolveAfterRate cfg st now q).1.expected_total_chunks s = some t := by
  unfold resolveAfterRate
  by_cases hlen : 63 < (leftLabel q).length
  · rw [if_pos hlen]
    exact Or.inl rfl
  · rw [if_neg hlen]
    rcases hparts : splitDash (leftLabel q) with
      _ | ⟨p1, _ | ⟨p2, _ | ⟨p3, _ | ⟨p4, _ | ⟨p5, rest⟩⟩⟩⟩⟩
    · exact Or.inl rfl
    · exact Or.inl rfl
    · exact Or.inl rfl
    · -- DONE-shaped: exactly three fields
      dsimp only
      by_cases hcond : p2 = ['D', 'O', 'N', 'E'] ∧ p3.all Char.isDigit = true
          ∧ p3.length = 4
      · rw [if_pos hcond]
        by_cases hsid : ¬ is_valid_base32 p1
        · rw [if_pos hsid]
          exact Or.inl rfl
        · rw [if_neg hsid]
          by_cases hs : s = p1
          · refine Or.inr (Or.inr ⟨natOfDigits p3, ⟨hlen, p3, ?_, hcond.2.1, hcond.2.2,
              ?_, rfl⟩, ?_⟩)
            · rw [hparts, hcond.1, hs]
            · rw [hs]
              exact not_not.mp hsid
            · rw [hs]
              exact lookupA_insertA_self st.expected_total_chunks p1 (natOfDigits p3)
          · exact Or.inl (lookupA_insertA_ne st.expected_total_chunks p1 _ s hs)
      · rw [if_neg hcond]
        exact Or.inl rfl
    · -- data-shaped: exactly four fields
      dsimp only
      rw [resolveData_expected_eq]
      rcases preprocess_expected_or_none cfg st now p1 s with h | h
      · exact Or.inl h
      · exact Or.inr (Or.inl h)
    · exact Or.inl rfl

/-- C5 amended: `expected_total` is modified only by DONE records: after
any processed record, each session's `expected_total` is unchanged, removed
(by the idle-expiry/eviction passes of a data record), or set by a DONE
record addressed to that session — and since a later DONE overwrites it
unconditionally with its carried total, the value can decrease (see
`c5_counterexample`). -/
theorem c5_amended_expected_total (cfg : Config) (st : ResolverState) (now : ℚ)
    (q s : Str) :
    lookupA (resolve cfg st now q).1.expected_total_chunks s
        = lookupA st.expected_total_chunks s
    ∨ lookupA (resolve cfg st now q).1.expected_total_chunks s = none
    ∨ ∃ t, isDoneRecordFor q s t
        ∧ lookupA (resolve cfg st now q).1.expected_total_chunks s = some t := by
  unfold resolve
  cases hsrl : cfg.server_rate_limit with
  | none => exact resolveAfterRate_expected cfg st now q s
  | some lim =>
      dsimp only
      by_cases hfull : lim ≤
          (st.rate_limit_timestamps.dropWhile (fun t => decide (t < now - 60))).length
      · rw [if_pos hfull]
        exact Or.inl rfl
      · rw [if_neg hfull]
        exact resolveAfterRate_expected cfg _ now q s

/-- C5 is false as stated: a DONE(5) for session `"ABCD"` sets
`expected_total = 5`, and a later DONE(3) for the same session overwrites
it with 3 — the value decreases. -/
theorem c5_counterexample :
    lookupA (resolve defaultConfig initResolverState 0
        (("ABCD-DONE-0005.example.com.").data)).1.expected_total_chunks (("ABCD").data)
      = some 5
    ∧ lookupA (resolve defaultConfig
          (resolve defaultConfig initResolverState 0
            (("ABCD-DONE-0005.example.com.").data)).1 0
          (("ABCD-DONE-0003.example.com.").data)).1.expected_total_chunks (("ABCD").data)
      = some 3 := by
  exact ⟨by decide, by decide⟩

theorem resolveAfterRate_nx (cfg : Config) (st : ResolverState) (now : ℚ) (q s : Str)
    (h : (resolveAfterRate cfg st now q).2 = Rcode.nxdomain) :
    (lookupA (resolveAfterRate cfg st now q).1.data_chunks s = lookupA st.data_chunks s
      ∨ lookupA (resolveAfterRate cfg st now q).1.data_chunks s = none)
    ∧ (lookupA (resolveAfterRate cfg st now q).1.expected_total_chunks s
          = lookupA st.expected_total_chunks s
      ∨ lookupA (resolveAfterRate cfg st now q).1.expected_total_chunks s = none) := by
  unfold resolveAfterRate at h ⊢
  by_cases hlen : 63 < (leftLabel q).length
  · rw [if_pos hlen]
    exact ⟨Or.inl rfl, Or.inl rfl⟩
  · rw [if_neg hlen] at h ⊢
    rcases hparts : splitDash (leftLabel q) with
      _ | ⟨p1, _ | ⟨p2, _ | ⟨p3, _ | ⟨p4, _ | ⟨p5, rest⟩⟩⟩⟩⟩
    · exact ⟨Or.inl rfl, Or.inl rfl⟩
    · exact ⟨Or.inl rfl, Or.inl rfl⟩
    · exact ⟨Or.inl rfl, Or.inl rfl⟩
    · rw [hparts] at h
      dsimp only at h ⊢
      by_cases hcond : p2 = ['D', 'O', 'N', 'E'] ∧ p3.all Char.isDigit = true
          ∧ p3.length = 4
      · rw [if_pos hcond] at h ⊢
        by_cases hsid : ¬ is_valid_base32 p1
        · rw [if_pos hsid]
          exact ⟨Or.inl rfl, Or.inl rfl⟩
        · rw [if_neg hsid] at h
          simp at h
      · rw [if_neg hcond]
        exact ⟨Or.inl rfl, Or.inl rfl⟩
    · rw [hparts] at h
      dsimp only at h ⊢
      rw [resolveData_nx_state cfg st now p1 p2 p3 p4 h]
      exact ⟨preprocess_chunks_or_none cfg st now p1 s,
        preprocess_expected_or_none cfg st now p1 s⟩
    · exact ⟨Or.inl rfl, Or.inl rfl⟩

/-- C4 amended: when the receiver rejects a record (NXDOMAIN) — bad field
count, invalid session-id/chunk/checksum alphabet, malformed sequence, or
checksum mismatch — no chunk is stored and no expected total is set: every
session's stored-chunk map and expected total are unchanged or at most
removed whole by the pre-validation idle-expiry/eviction passes.  The
pre-validation bookkeeping of a 4-field record does, however, create or
refresh `session_first_seen`/`session_last_activity` for the addressed
session id before validating it, which is what falsifies the claim as
stated (see `c4_counterexample`). -/
theorem c4_amended_rejection (cfg : Config) (st : ResolverState) (now : ℚ) (q s : Str)
    (h : (resolve cfg st now q).2 = Rcode.nxdomain) :
    (lookupA (resolve cfg st now q).1.data_chunks s = lookupA st.data_chunks s
      ∨ lookupA (resolve cfg st now q).1.data_chunks s = none)
    ∧ (lookupA (resolve cfg st now q).1.expected_total_chunks s
          = lookupA st.expected_total_chunks s
      ∨ lookupA (resolve cfg st now q).1.expected_total_chunks s = none) := by
  unfold resolve at h ⊢
  cases hsrl : cfg.server_rate_limit with
  | none =>
      simp only [hsrl] at h
      exact resolveAfterRate_nx cfg st now q s h
  | some lim =>
      simp only [hsrl] at h
      dsimp only
      by_cases hfull : lim ≤
          (st.rate_limit_timestamps.dropWhile (fun t => decide (t < now - 60))).length
      · rw [if_pos hfull]
        exact ⟨Or.inl rfl, Or.inl rfl⟩
      · rw [if_neg hfull] at h ⊢
        exact resolveAfterRate_nx cfg _ now q s h

/-- C4 is false as stated: the data record `"ABCD-12AB-MFRG-AAA"` (malformed
sequence field) is rejected with NXDOMAIN, yet processing it from the empty
state creates `session_first_seen` and `session_last_activity` entries for
`"ABCD"`. -/
theorem c4_counterexample :
    (resolve defaultConfig initResolverState 0
        (("ABCD-12AB-MFRG-AAA.example.com.").data)).2 = Rcode.nxdomain
    ∧ (resolve defaultConfig initResolverState 0
        (("ABCD-12AB-MFRG-AAA.example.com.").data)).1.session_first_seen
      ≠ initResolverState.session_first_seen := by
  exact ⟨by decide, by decide⟩

/-- Witness for the amended C4 at the rejected record of
`c4_counterexample` and session `"ABCD"`. -/
theorem c4_amended_rejection_witness :
    (lookupA (resolve defaultConfig initResolverState 0
          (("ABCD-12AB-MFRG-AAA.example.com.").data)).1.data_chunks (("ABCD").data)
        = lookupA initResolverState.data_chunks (("ABCD").data)
      ∨ lookupA (resolve defaultConfig initResolverState 0
          (("ABCD-12AB-MFRG-AAA.example.com.").data)).1.data_chunks (("ABCD").data)
        = none)
    ∧ (lookupA (resolve defaultConfig initResolverState 0
          (("ABCD-12AB-MFRG-AAA.example.com.").data)).1.expected_total_chunks
          (("ABCD").data)
        = lookupA initResolverState.expected_total_chunks (("ABCD").data)
      ∨ lookupA (resolve defaultConfig initResolverState 0
          (("ABCD-12AB-MFRG-AAA.example.com.").data)).1.expected_total_chunks
          (("ABCD").data)
        = none) :=
  c4_amended_rejection defaultConfig initResolverState 0
    (("ABCD-12AB-MFRG-AAA.example.com.").data) (("ABCD").data) (by decide)

end DNSExfil
